import Mathlib

/-!
Verification of the `rag-api` ingestion service (`src/rag-api/main.py`).

Shallow embedding conventions:
* Python `str` values are modelled as `List Char`; raw byte strings as
  `List Char` as well (the UTF-8 `errors="ignore"` decode is modelled as an
  abstract total function `Bytes → List Char`, since in Python
  `bytes.decode("utf-8", errors="ignore")` never raises).
* Embedding vectors are `List Int` (only their length and the zero vector
  matter to the properties verified here).
* The remote embedding service is an oracle `Emb : Text → Vec`.
* Fallible external libraries (PDF/DOCX/PPTX/CSV/XLSX/XLS extraction) are
  oracles returning `Except Unit Text`; a raised Python exception is the
  `Except.error` case.
-/

abbrev Text := List Char
abbrev Bytes := List Char
abbrev Vec := List Int
abbrev Emb := Text → Vec

/-- Python slice `s[start : stop]` for a non-negative `start` (the code only
slices with a `Nat` start); `stop` may be any integer, with Python's
negative-index-from-the-end semantics. -/
def pySlice (s : List Char) (start : Nat) (stop : Int) : List Char :=
  let stopN : Nat := if stop < 0 then (s.length + stop).toNat else stop.toNat
  (s.take stopN).drop start

/-- The `while i < len(s)` loop of `chunks` (main.py lines 77-79): emit
`s[i:i+size]` and advance `i` by `step`.  The loop variable strictly
increases because the caller passes `step = max(1, size - overlap) ≥ 1`. -/
def chunksGo (s : List Char) (size : Int) (step : Nat) (hstep : 0 < step)
    (i : Nat) : List (List Char) :=
  if h : i < s.length then
    pySlice s i ((i : Int) + size) :: chunksGo s size step hstep (i + step)
  else []
termination_by s.length - i
decreasing_by omega

/-- `chunks(s, size, overlap)` from main.py lines 73-80. -/
def chunks (s : List Char) (size overlap : Int) : List (List Char) :=
  if s.isEmpty then []
  else
    chunksGo s size (max 1 (size - overlap)).toNat
      (by
        have h1 : (1 : Int) ≤ max 1 (size - overlap) := le_max_left 1 _
        omega) 0

/-- Length of the chunk loop's output: the ceiling of `(len - i) / step`. -/
theorem chunksGo_length (s : List Char) (size : Int) (step : Nat)
    (hstep : 0 < step) :
    ∀ n i, s.length - i ≤ n →
      (chunksGo s size step hstep i).length = (s.length - i + step - 1) / step := by
  intro n
  induction n with
  | zero =>
    intro i hi
    rw [chunksGo]
    have hni : ¬ i < s.length := by omega
    simp only [hni, dite_false, List.length_nil]
    have h0 : s.length - i = 0 := by omega
    rw [h0]
    exact (Nat.div_eq_of_lt (by omega)).symm
  | succ n ih =>
    intro i hi
    rw [chunksGo]
    by_cases h : i < s.length
    · simp only [h, dite_true, List.length_cons]
      rw [ih (i + step) (by omega)]
      have key : s.length - i + step - 1 = (s.length - i - 1) + step := by omega
      rw [key, Nat.add_div_right _ hstep]
      by_cases h2 : s.length ≤ i + step
      · have e1 : s.length - (i + step) = 0 := by omega
        rw [e1]
        have e2 : (0 + step - 1) / step = 0 := Nat.div_eq_of_lt (by omega)
        rw [e2]
        have e3 : (s.length - i - 1) / step = 0 := Nat.div_eq_of_lt (by omega)
        rw [e3]
      · have e1 : s.length - (i + step) + step - 1 =
            (s.length - i - step - 1) + step := by omega
        rw [e1, Nat.add_div_right _ hstep]
        have e2 : s.length - i - 1 = (s.length - i - step - 1) + step := by omega
        rw [e2, Nat.add_div_right _ hstep]
    · simp only [h, dite_false, List.length_nil]
      have h0 : s.length - i = 0 := by omega
      rw [h0]
      exact (Nat.div_eq_of_lt (by omega)).symm

/-- The `k`-th emitted chunk is the slice starting at offset `i + k*step`. -/
theorem chunksGo_getD (s : List Char) (size : Int) (step : Nat)
    (hstep : 0 < step) :
    ∀ n i k, s.length - i ≤ n → i + k * step < s.length →
      (chunksGo s size step hstep i).getD k [] =
        pySlice s (i + k * step) (((i + k * step : Nat) : Int) + size) := by
  intro n
  induction n with
  | zero =>
    intro i k hi hk
    have : i < s.length := by
      have hz : i ≤ i + k * step := Nat.le_add_right _ _
      omega
    omega
  | succ n ih =>
    intro i k hi hk
    have hil : i < s.length := by
      have hz : i ≤ i + k * step := Nat.le_add_right _ _
      omega
    rw [chunksGo]
    simp only [hil, dite_true]
    match k with
    | 0 => simp
    | k + 1 =>
      have harith : i + step + k * step = i + (k + 1) * step := by ring
      have hk' : (i + step) + k * step < s.length := by rw [harith]; exact hk
      have hrec := ih (i + step) k (by omega) hk'
      simp only [List.getD_cons_succ]
      rw [hrec, harith]

/-- For a non-negative slice width, the Python slice `s[i : i+size]` is plain
drop-then-take. -/
theorem pySlice_of_nonneg (s : List Char) (i : Nat) (size : Int) (hs : 0 ≤ size) :
    pySlice s i ((i : Int) + size) = (s.drop i).take size.toNat := by
  unfold pySlice
  have h1 : ¬ ((i : Int) + size < 0) := by omega
  simp only [h1, if_false]
  have h2 : ((i : Int) + size).toNat = i + size.toNat := by omega
  rw [h2, List.drop_take]
  congr 1
  omega

/-- The step argument (with its positivity proof) can be rewritten. -/
theorem chunksGo_congr (s : List Char) (size : Int) {st1 st2 : Nat}
    (h1 : 0 < st1) (h2 : 0 < st2) (he : st1 = st2) (i : Nat) :
    chunksGo s size st1 h1 i = chunksGo s size st2 h2 i := by
  subst he; rfl

theorem chunks_empty (size overlap : Int) : chunks [] size overlap = [] := by
  simp [chunks]

/-- Unfold `chunks` on a non-empty string to the loop with an arbitrary
equal step value. -/
theorem chunks_eq_go (s : List Char) (size overlap : Int) (hne : s.isEmpty = false)
    (d : Nat) (hd : 0 < d) (he : (max 1 (size - overlap)).toNat = d) :
    chunks s size overlap = chunksGo s size d hd 0 := by
  rw [chunks]
  simp only [hne, Bool.false_eq_true, if_false]
  exact chunksGo_congr _ _ _ _ he 0

theorem chunks_length (s : List Char) (size overlap : Int) :
    (chunks s size overlap).length =
      (s.length + (max 1 (size - overlap)).toNat - 1) /
        (max 1 (size - overlap)).toNat := by
  have hst : 0 < (max 1 (size - overlap)).toNat := by
    have h1 : (1 : Int) ≤ max 1 (size - overlap) := le_max_left 1 _
    omega
  by_cases hs : s.isEmpty
  · have : s = [] := List.isEmpty_iff.mp hs
    subst this
    rw [chunks_empty]
    simp only [List.length_nil, Nat.zero_add]
    exact (Nat.div_eq_of_lt (by omega)).symm
  · rw [chunks_eq_go s size overlap (by simpa using hs) _ hst rfl]
    have := chunksGo_length s size _ hst s.length 0 (by omega)
    simpa using this

/-- C10 helper: ceiling-division count is bounded by the numerator. -/
theorem chunks_length_le (s : List Char) (size overlap : Int) :
    (chunks s size overlap).length ≤ s.length := by
  have hst : 0 < (max 1 (size - overlap)).toNat := by
    have h1 : (1 : Int) ≤ max 1 (size - overlap) := le_max_left 1 _
    omega
  rw [chunks_length]
  rcases Nat.eq_zero_or_pos s.length with h0 | h1
  · rw [h0]
    have : (0 + (max 1 (size - overlap)).toNat - 1) /
        (max 1 (size - overlap)).toNat = 0 := Nat.div_eq_of_lt (by omega)
    omega
  · have e1 : s.length + (max 1 (size - overlap)).toNat - 1 =
        (s.length - 1) + (max 1 (size - overlap)).toNat := by omega
    rw [e1, Nat.add_div_right _ hst]
    have := Nat.div_le_self (s.length - 1) (max 1 (size - overlap)).toNat
    omega

/-- C1: the `k`-th chunk of a valid-parameter run is `s[k*step : k*step+size]`. -/
theorem chunks_getD (s : List Char) (size overlap : Int)
    (hsize : 0 < size) (hov0 : 0 ≤ overlap) (hov : overlap < size)
    (k : Nat) (hk : k < (chunks s size overlap).length) :
    (chunks s size overlap).getD k [] =
      (s.drop (k * (size - overlap).toNat)).take size.toNat := by
  set d := (size - overlap).toNat with hd
  have hd1 : 0 < d := by omega
  have hmax : (max 1 (size - overlap)).toNat = d := by
    rw [max_eq_right (by omega : (1 : Int) ≤ size - overlap)]
  have hL : 0 < s.length := by
    by_contra hL
    have : s = [] := by
      cases s with
      | nil => rfl
      | cons a t => simp at hL
    subst this
    rw [chunks_empty] at hk
    simp at hk
  have hne : s.isEmpty = false := by
    cases s with
    | nil => simp at hL
    | cons a t => rfl
  rw [chunks_eq_go s size overlap hne d hd1 hmax] at hk ⊢
  -- bound: k * d < s.length
  have hlen := chunksGo_length s size d hd1 s.length 0 (by omega)
  rw [hlen] at hk
  have e1 : s.length - 0 + d - 1 = (s.length - 1) + d := by omega
  rw [e1, Nat.add_div_right _ hd1] at hk
  have hkd : k ≤ (s.length - 1) / d := by omega
  have hkd2 : k * d ≤ s.length - 1 := (Nat.le_div_iff_mul_le hd1).mp hkd
  have hbound : 0 + k * d < s.length := by omega
  have := chunksGo_getD s size d hd1 s.length 0 k (by omega) hbound
  rw [this]
  have e2 : 0 + k * d = k * d := by omega
  rw [e2]
  exact pySlice_of_nonneg s (k * d) size (by omega)

/-- Coverage helper: each position of the text lies inside chunk `j / step`. -/
theorem chunks_cover (s : List Char) (size overlap : Int)
    (hsize : 0 < size) (hov0 : 0 ≤ overlap) (hov : overlap < size)
    (j : Nat) (hj : j < s.length) :
    ∃ k, k < (chunks s size overlap).length ∧
      k * (size - overlap).toNat ≤ j ∧
      j < k * (size - overlap).toNat + size.toNat := by
  set d := (size - overlap).toNat with hd
  have hd1 : 0 < d := by omega
  have hmax : (max 1 (size - overlap)).toNat = d := by
    rw [max_eq_right (by omega : (1 : Int) ≤ size - overlap)]
  refine ⟨j / d, ?_, ?_, ?_⟩
  · rw [chunks_length, hmax]
    have e1 : s.length + d - 1 = (s.length - 1) + d := by omega
    rw [e1, Nat.add_div_right _ hd1]
    have h2 : j / d ≤ (s.length - 1) / d := Nat.div_le_div_right (by omega)
    omega
  · exact Nat.div_mul_le_self j d
  · have h1 := Nat.div_add_mod j d
    have h2 := Nat.mod_lt j hd1
    have h3 : j < d * (j / d) + d := by
      conv_lhs => rw [← h1]
      exact Nat.add_lt_add_left h2 _
    have h4 : d ≤ size.toNat := by omega
    calc j < d * (j / d) + d := h3
      _ = j / d * d + d := by rw [Nat.mul_comm]
      _ ≤ j / d * d + size.toNat := Nat.add_le_add_left h4 _

/-- C1: for valid parameters (`size ≥ 128`, `0 ≤ overlap < size`) the chunker
emits exactly the substrings `s[k*step : k*step+size]` for `k = 0, 1, ...`
(`step = size - overlap`), the number of chunks is `⌈len(s) / step⌉`, the
chunk ranges cover `[0, len(s))`, and the empty string yields no chunks. -/
theorem C1_chunker_spec (s : List Char) (size overlap : Int)
    (hsize : 128 ≤ size) (hov0 : 0 ≤ overlap) (hov : overlap < size) :
    ((chunks s size overlap).length =
        (s.length + (size - overlap).toNat - 1) / (size - overlap).toNat) ∧
    (∀ k, k < (chunks s size overlap).length →
        (chunks s size overlap).getD k [] =
          (s.drop (k * (size - overlap).toNat)).take size.toNat) ∧
    (∀ j, j < s.length → ∃ k, k < (chunks s size overlap).length ∧
        k * (size - overlap).toNat ≤ j ∧
        j < k * (size - overlap).toNat + size.toNat) ∧
    chunks [] size overlap = [] := by
  have hmax : (max 1 (size - overlap)).toNat = (size - overlap).toNat := by
    rw [max_eq_right (by omega : (1 : Int) ≤ size - overlap)]
  refine ⟨?_, ?_, ?_, chunks_empty size overlap⟩
  · rw [chunks_length, hmax]
  · intro k hk
    exact chunks_getD s size overlap (by omega) hov0 hov k hk
  · intro j hj
    exact chunks_cover s size overlap (by omega) hov0 hov j hj

theorem C1_chunker_spec_witness :
    ((128 : Int) ≤ 128 ∧ (0 : Int) ≤ 28 ∧ (28 : Int) < 128) ∧
    (((chunks (List.replicate 150 'a') 128 28).length =
        ((List.replicate 150 'a' : List Char).length + ((128 : Int) - 28).toNat - 1) /
          ((128 : Int) - 28).toNat) ∧
    (∀ k, k < (chunks (List.replicate 150 'a') 128 28).length →
        (chunks (List.replicate 150 'a') 128 28).getD k [] =
          ((List.replicate 150 'a' : List Char).drop (k * ((128 : Int) - 28).toNat)).take (128 : Int).toNat) ∧
    (∀ j, j < (List.replicate 150 'a' : List Char).length →
        ∃ k, k < (chunks (List.replicate 150 'a') 128 28).length ∧
        k * ((128 : Int) - 28).toNat ≤ j ∧
        j < k * ((128 : Int) - 28).toNat + (128 : Int).toNat) ∧
    chunks [] 128 28 = []) :=
  ⟨⟨by norm_num, by norm_num, by norm_num⟩,
   C1_chunker_spec (List.replicate 150 'a') 128 28 (by norm_num) (by norm_num) (by norm_num)⟩

/-- C10: for every string and arbitrary (also invalid) integer parameters,
the advance step is clamped to at least 1, the loop performs finitely many
iterations, and the resulting list has exactly
`⌈len(s) / max(1, size-overlap)⌉` elements, in particular at most `len(s)`. -/
theorem C10_chunker_total (s : List Char) (size overlap : Int) :
    1 ≤ (max 1 (size - overlap)).toNat ∧
    (chunks s size overlap).length =
      (s.length + (max 1 (size - overlap)).toNat - 1) /
        (max 1 (size - overlap)).toNat ∧
    (chunks s size overlap).length ≤ s.length := by
  refine ⟨?_, chunks_length s size overlap, chunks_length_le s size overlap⟩
  have h1 : (1 : Int) ≤ max 1 (size - overlap) := le_max_left 1 _
  omega

/-- The per-text body of `embed_batch` (main.py lines 47-58): a text that is
truthy and has a truthy `strip()` (i.e. contains a non-whitespace character)
goes to the remote service; otherwise the hardcoded 768-dimensional zero
vector is substituted. -/
def embedOne (E : Emb) (text : Text) : Vec :=
  if !text.isEmpty && text.any (fun c => !c.isWhitespace) then E text
  else List.replicate 768 0

/-- `embed_batch(text_list)` from main.py lines 43-59. -/
def embed_batch (E : Emb) : List Text → List Vec
  | [] => []
  | text :: rest => embedOne E text :: embed_batch E rest

theorem embed_batch_length (E : Emb) (ts : List Text) :
    (embed_batch E ts).length = ts.length := by
  induction ts with
  | nil => rfl
  | cons t rest ih => simp [embed_batch, ih]

theorem embed_batch_getD (E : Emb) (ts : List Text) :
    ∀ k, k < ts.length →
      (embed_batch E ts).getD k [] = embedOne E (ts.getD k []) := by
  induction ts with
  | nil => intro k hk; simp at hk
  | cons t rest ih =>
    intro k hk
    match k with
    | 0 => simp [embed_batch]
    | k + 1 =>
      simp only [embed_batch, List.getD_cons_succ]
      exact ih k (by simpa using hk)

/-- C2: `embed_batch` is 1:1 with its input, in order; a blank or
whitespace-only element maps to the fixed 768-dimensional all-zero vector
rather than being omitted, and a non-blank element maps to the vector the
remote service returns for it. -/
theorem C2_embed_alignment (E : Emb) (ts : List Text) :
    (embed_batch E ts).length = ts.length ∧
    (List.replicate 768 (0 : Int)).length = 768 ∧
    (∀ k, k < ts.length →
      ((ts.getD k []).all (fun c => c.isWhitespace) →
          (embed_batch E ts).getD k [] = List.replicate 768 0) ∧
      ((ts.getD k []).any (fun c => !c.isWhitespace) →
          (embed_batch E ts).getD k [] = E (ts.getD k []))) := by
  refine ⟨embed_batch_length E ts, by rw [List.length_replicate], ?_⟩
  intro k hk
  rw [embed_batch_getD E ts k hk]
  constructor
  · intro hblank
    unfold embedOne
    have hnone : (ts.getD k []).any (fun c => !c.isWhitespace) = false := by
      rw [List.any_eq_false]
      intro c hc
      have := List.all_eq_true.mp hblank c hc
      simpa using this
    have hcond : (!(ts.getD k []).isEmpty &&
        (ts.getD k []).any fun c => !c.isWhitespace) = false := by
      rw [hnone, Bool.and_false]
    rw [if_neg (by rw [hcond]; exact Bool.false_ne_true)]
  · intro hsome
    unfold embedOne
    have hne : (ts.getD k []).isEmpty = false := by
      rcases List.any_eq_true.mp hsome with ⟨c, hc, _⟩
      cases h : ts.getD k [] with
      | nil => rw [h] at hc; simp at hc
      | cons a t => rfl
    have hcond : (!(ts.getD k []).isEmpty &&
        (ts.getD k []).any fun c => !c.isWhitespace) = true := by
      rw [hne, hsome]; rfl
    rw [if_pos hcond]

theorem C2_embed_alignment_witness :
    (embed_batch (fun t => [(t.length : Int)]) ["hi".toList, [], "  ".toList]).length = 3 ∧
    (embed_batch (fun t => [(t.length : Int)]) ["hi".toList, [], "  ".toList]).getD 0 [] = [2] ∧
    (embed_batch (fun t => [(t.length : Int)]) ["hi".toList, [], "  ".toList]).getD 1 [] = List.replicate 768 0 ∧
    (embed_batch (fun t => [(t.length : Int)]) ["hi".toList, [], "  ".toList]).getD 2 [] = List.replicate 768 0 := by
  have h := C2_embed_alignment (fun t => [(t.length : Int)]) ["hi".toList, [], "  ".toList]
  refine ⟨h.1, ?_, ?_, ?_⟩
  · have := ((h.2.2 0 (by norm_num)).2 (by decide))
    simpa using this
  · exact (h.2.2 1 (by norm_num)).1 (by decide)
  · exact (h.2.2 2 (by norm_num)).1 (by decide)

/-- `chunk_list(items, n)` from main.py lines 69-71: successive groups of `n`
items.  The endpoints only ever call it with a positive `n` (`range` with a
zero step would raise in Python), so the positive step is a parameter. -/
def chunk_list {α : Type} (items : List α) (n : Nat) (hn : 0 < n) :
    List (List α) :=
  if h : items.isEmpty then []
  else items.take n :: chunk_list (items.drop n) n hn
termination_by items.length
decreasing_by
  simp only [List.length_drop]
  have hne : items ≠ [] := by
    cases items with
    | nil => simp at h
    | cons a t => simp
  have hpos : 0 < items.length := List.length_pos.mpr hne
  omega

/-- Per-chunk metadata record `{"project": ..., "file": ...}`. -/
structure ChunkMeta where
  project : String
  file : List Char
deriving Repr, DecidableEq, Inhabited

/-- A stored vector-index point (the random uuid id is irrelevant to the
verified properties and is not modelled). -/
structure PointStruct where
  vector : Vec
  text : Text
  meta : ChunkMeta
deriving Repr, DecidableEq, Inhabited

/-- The metadata lookup of `/ingest` (main.py line 228):
`meta[(total_points + i) if (total_points + i) < len(meta) else -1]`.
Python's `meta[-1]` is the last element; it raises on an empty list, a case
unreachable in the endpoint because chunk and meta lists grow in lockstep
(modelled with a default). -/
def metaPick (meta : List ChunkMeta) (k : Nat) : ChunkMeta :=
  if k < meta.length then meta.getD k default else meta.getLastD default

/-- The metadata lookup of `/ingest_urls` and `/ingest_sharepoint`
(main.py lines 268 and 335): plain `meta[total_points + i]` (an index error
is unreachable for lockstep-built lists; modelled with a default). -/
def metaIdx (meta : List ChunkMeta) (k : Nat) : ChunkMeta :=
  meta.getD k default

/-- The point-building comprehension (main.py lines 227-229 / 267-268):
`for i, v in enumerate(vecs)` paired with `ch_batch[i]` and the metadata at
absolute running index `total_points + i` (`g`). -/
def buildPts (E : Emb) (g : Nat → ChunkMeta) (ch_batch : List Text)
    (total_points : Nat) : List PointStruct :=
  (List.range (embed_batch E ch_batch).length).map (fun i =>
    { vector := (embed_batch E ch_batch).getD i []
      text := ch_batch.getD i []
      meta := g (total_points + i) })

/-- The inner upsert loop (main.py lines 230-232): upsert sub-batches of
`pts` in order, incrementing `total_points` by each sub-batch length; the
state is `(total_points, all points upserted so far)`. -/
def upsertFold (UB : Nat) (hUB : 0 < UB) (pts : List PointStruct)
    (acc : Nat × List PointStruct) : Nat × List PointStruct :=
  (chunk_list pts UB hUB).foldl (fun a up => (a.1 + up.length, a.2 ++ up)) acc

/-- The whole nested batching loop shared by the three ingestion endpoints
(main.py lines 222-232, 264-271, 331-338), parametrised by the metadata
lookup `g`.  Returns the final `total_points` and the full sequence of
upserted points. -/
def pipeline (E : Emb) (g : Nat → ChunkMeta) (EB UB : Nat)
    (hEB : 0 < EB) (hUB : 0 < UB) (all_chunks : List Text) :
    Nat × List PointStruct :=
  (chunk_list all_chunks EB hEB).foldl
    (fun acc ch_batch => upsertFold UB hUB (buildPts E g ch_batch acc.1) acc)
    (0, [])

/-- Reference sequence: one point per chunk, in order, vector from
`embedOne`, metadata at the absolute index. -/
def mkPoints (E : Emb) (g : Nat → ChunkMeta) : List Text → Nat → List PointStruct
  | [], _ => []
  | t :: rest, T =>
    { vector := embedOne E t, text := t, meta := g T } :: mkPoints E g rest (T + 1)

theorem chunk_list_nil {α : Type} (n : Nat) (hn : 0 < n) :
    chunk_list ([] : List α) n hn = [] := by
  rw [chunk_list]
  rfl

theorem chunk_list_cons {α : Type} (items : List α) (n : Nat) (hn : 0 < n)
    (hne : items ≠ []) :
    chunk_list items n hn = items.take n :: chunk_list (items.drop n) n hn := by
  rw [chunk_list]
  have h : items.isEmpty = false := by
    cases items with
    | nil => exact absurd rfl hne
    | cons a t => rfl
  simp [h]

theorem mkPoints_length (E : Emb) (g : Nat → ChunkMeta) (l : List Text) :
    ∀ T, (mkPoints E g l T).length = l.length := by
  induction l with
  | nil => intro T; rfl
  | cons t rest ih => intro T; simp [mkPoints, ih]

theorem mkPoints_getD (E : Emb) (g : Nat → ChunkMeta) (l : List Text) :
    ∀ T k, k < l.length →
      (mkPoints E g l T).getD k default =
        { vector := embedOne E (l.getD k []), text := l.getD k [],
          meta := g (T + k) } := by
  induction l with
  | nil => intro T k hk; simp at hk
  | cons t rest ih =>
    intro T k hk
    match k with
    | 0 => simp [mkPoints]
    | k + 1 =>
      simp only [mkPoints, List.getD_cons_succ]
      rw [ih (T + 1) k (by simpa using hk)]
      have : T + 1 + k = T + (k + 1) := by omega
      rw [this]

theorem mkPoints_append (E : Emb) (g : Nat → ChunkMeta) (a : List Text) :
    ∀ (b : List Text) (T : Nat),
      mkPoints E g (a ++ b) T = mkPoints E g a T ++ mkPoints E g b (T + a.length) := by
  induction a with
  | nil => intro b T; simp [mkPoints]
  | cons t rest ih =>
    intro b T
    simp only [List.cons_append, mkPoints, List.length_cons, List.append_eq]
    rw [ih b (T + 1)]
    have : T + 1 + rest.length = T + (rest.length + 1) := by omega
    rw [this]

/-- The enumerate-based point construction builds exactly one point per
chunk of the batch, pairing position `i` of the batch with metadata index
`total_points + i`. -/
theorem buildPts_eq_mkPoints (E : Emb) (g : Nat → ChunkMeta)
    (B : List Text) (T : Nat) :
    buildPts E g B T = mkPoints E g B T := by
  apply List.ext_get
  · simp [buildPts, mkPoints_length, embed_batch_length]
  · intro k h1 h2
    have hkB : k < B.length := by
      simpa [mkPoints_length] using h2
    have hlen : (buildPts E g B T).length = B.length := by
      simp [buildPts, embed_batch_length]
    -- left side: element of a map over a range
    have hget1 : (buildPts E g B T).get ⟨k, h1⟩ =
        { vector := (embed_batch E B).getD k []
          text := B.getD k []
          meta := g (T + k) } := by
      simp [buildPts]
    have hget2 : (mkPoints E g B T).get ⟨k, h2⟩ =
        { vector := embedOne E (B.getD k []), text := B.getD k [],
          meta := g (T + k) } := by
      have hD := mkPoints_getD E g B T k hkB
      rw [List.getD_eq_getElem _ _ h2] at hD
      rw [List.get_eq_getElem]
      exact hD
    rw [hget1, hget2, embed_batch_getD E B k hkB]

theorem upsertFold_spec (UB : Nat) (hUB : 0 < UB) :
    ∀ n (pts : List PointStruct), pts.length ≤ n → ∀ t st,
      upsertFold UB hUB pts (t, st) = (t + pts.length, st ++ pts) := by
  intro n
  induction n with
  | zero =>
    intro pts hlen t st
    have : pts = [] := List.length_eq_zero.mp (by omega)
    subst this
    simp [upsertFold, chunk_list_nil]
  | succ n ih =>
    intro pts hlen t st
    by_cases hne : pts = []
    · subst hne
      simp [upsertFold, chunk_list_nil]
    · unfold upsertFold
      rw [chunk_list_cons pts UB hUB hne, List.foldl_cons]
      have hlenpos : 0 < pts.length := List.length_pos.mpr hne
      have hdrop : (pts.drop UB).length ≤ n := by
        simp only [List.length_drop]
        omega
      have := ih (pts.drop UB) hdrop (t + (pts.take UB).length) (st ++ pts.take UB)
      unfold upsertFold at this
      rw [this]
      have harr : st ++ pts.take UB ++ pts.drop UB = st ++ pts := by
        rw [List.append_assoc, List.take_append_drop]
      have hlen2 : (pts.take UB).length + (pts.drop UB).length = pts.length := by
        simp only [List.length_take, List.length_drop]
        omega
      rw [harr]
      have : t + (pts.take UB).length + (pts.drop UB).length = t + pts.length := by
        omega
      rw [this]

/-- The nested embed/upsert batching loop equals the direct per-chunk point
sequence: `total_points` ends at the number of chunks and the stored points
are `mkPoints` at absolute indices. -/
theorem pipeline_spec_go (E : Emb) (g : Nat → ChunkMeta) (EB UB : Nat)
    (hEB : 0 < EB) (hUB : 0 < UB) :
    ∀ n (l : List Text), l.length ≤ n → ∀ T st, st.length = T →
      (chunk_list l EB hEB).foldl
          (fun acc ch_batch => upsertFold UB hUB (buildPts E g ch_batch acc.1) acc)
          (T, st) =
        (T + l.length, st ++ mkPoints E g l T) := by
  intro n
  induction n with
  | zero =>
    intro l hlen T st hst
    have : l = [] := List.length_eq_zero.mp (by omega)
    subst this
    simp [chunk_list_nil, mkPoints]
  | succ n ih =>
    intro l hlen T st hst
    by_cases hne : l = []
    · subst hne
      simp [chunk_list_nil, mkPoints]
    · rw [chunk_list_cons l EB hEB hne, List.foldl_cons]
      have hstep : upsertFold UB hUB (buildPts E g (l.take EB) T) (T, st) =
          (T + (l.take EB).length, st ++ mkPoints E g (l.take EB) T) := by
        rw [buildPts_eq_mkPoints]
        have := upsertFold_spec UB hUB (mkPoints E g (l.take EB) T).length
          (mkPoints E g (l.take EB) T) (le_refl _) T st
        rw [this, mkPoints_length]
      rw [hstep]
      have hlenpos : 0 < l.length := List.length_pos.mpr hne
      have hdrop : (l.drop EB).length ≤ n := by
        simp only [List.length_drop]
        omega
      have hst' : (st ++ mkPoints E g (l.take EB) T).length =
          T + (l.take EB).length := by
        simp [mkPoints_length, hst]
      rw [ih (l.drop EB) hdrop (T + (l.take EB).length) _ hst']
      have htl : (l.take EB).length + (l.drop EB).length = l.length := by
        simp only [List.length_take, List.length_drop]
        omega
      have hfst : T + (l.take EB).length + (l.drop EB).length = T + l.length := by
        omega
      rw [hfst, List.append_assoc]
      have happ := mkPoints_append E g (l.take EB) (l.drop EB) T
      rw [List.take_append_drop] at happ
      rw [← happ]

/-- Top-level pipeline characterisation. -/
theorem pipeline_spec (E : Emb) (g : Nat → ChunkMeta) (EB UB : Nat)
    (hEB : 0 < EB) (hUB : 0 < UB) (all_chunks : List Text) :
    pipeline E g EB UB hEB hUB all_chunks =
      (all_chunks.length, mkPoints E g all_chunks 0) := by
  unfold pipeline
  have := pipeline_spec_go E g EB UB hEB hUB all_chunks.length all_chunks
    (le_refl _) 0 [] rfl
  rw [this]
  simp

/-- The stored points of the `/ingest` endpoint's batching loop
(main.py lines 222-232), for given accumulated chunk and metadata lists. -/
def ingestPoints (E : Emb) (EB UB : Nat) (hEB : 0 < EB) (hUB : 0 < UB)
    (all_chunks : List Text) (meta : List ChunkMeta) : List PointStruct :=
  (pipeline E (metaPick meta) EB UB hEB hUB all_chunks).2

/-- The stored points of the `/ingest_urls` / `/ingest_sharepoint` batching
loops (main.py lines 264-271 and 331-338). -/
def ingestPointsU (E : Emb) (EB UB : Nat) (hEB : 0 < EB) (hUB : 0 < UB)
    (all_chunks : List Text) (meta : List ChunkMeta) : List PointStruct :=
  (pipeline E (metaIdx meta) EB UB hEB hUB all_chunks).2

theorem metaPick_of_lt (meta : List ChunkMeta) (k : Nat) (hk : k < meta.length) :
    metaPick meta k = meta.getD k default := by
  unfold metaPick
  rw [if_pos hk]

/-- C3: in all three ingestion loops, for any batch sizes and lockstep-built
chunk/metadata lists, the point at absolute index `k` carries the vector of
chunk `k`, the text of chunk `k` and the metadata record `k` — the
recombination by running index across embed and upsert sub-batches is
alignment-preserving. -/
theorem C3_batch_alignment (E : Emb) (EB UB : Nat) (hEB : 0 < EB)
    (hUB : 0 < UB) (all_chunks : List Text) (meta : List ChunkMeta)
    (hlen : meta.length = all_chunks.length)
    (k : Nat) (hk : k < all_chunks.length) :
    (ingestPoints E EB UB hEB hUB all_chunks meta).length = all_chunks.length ∧
    (ingestPointsU E EB UB hEB hUB all_chunks meta).length = all_chunks.length ∧
    (ingestPoints E EB UB hEB hUB all_chunks meta).getD k default =
      { vector := embedOne E (all_chunks.getD k []),
        text := all_chunks.getD k [],
        meta := meta.getD k default } ∧
    (ingestPointsU E EB UB hEB hUB all_chunks meta).getD k default =
      { vector := embedOne E (all_chunks.getD k []),
        text := all_chunks.getD k [],
        meta := meta.getD k default } := by
  unfold ingestPoints ingestPointsU
  rw [pipeline_spec E (metaPick meta) EB UB hEB hUB all_chunks,
    pipeline_spec E (metaIdx meta) EB UB hEB hUB all_chunks]
  refine ⟨mkPoints_length _ _ _ _, mkPoints_length _ _ _ _, ?_, ?_⟩
  · rw [mkPoints_getD E (metaPick meta) all_chunks 0 k hk]
    rw [metaPick_of_lt meta (0 + k) (by omega)]
    have : (0 : Nat) + k = k := by omega
    rw [this]
  · rw [mkPoints_getD E (metaIdx meta) all_chunks 0 k hk]
    unfold metaIdx
    have : (0 : Nat) + k = k := by omega
    rw [this]

theorem C3_batch_alignment_witness :
    ((0 : Nat) < 2 ∧ (0 : Nat) < 1 ∧
      ([⟨"p", ['a']⟩, ⟨"p", ['b']⟩, ⟨"q", ['c']⟩] : List ChunkMeta).length =
        (["x".toList, "y".toList, "z".toList] : List Text).length ∧
      (2 : Nat) < (["x".toList, "y".toList, "z".toList] : List Text).length) ∧
    (ingestPoints (fun t => [(t.length : Int)]) 2 1 (by norm_num) (by norm_num)
        ["x".toList, "y".toList, "z".toList]
        [⟨"p", ['a']⟩, ⟨"p", ['b']⟩, ⟨"q", ['c']⟩]).getD 2 default =
      { vector := embedOne (fun t => [(t.length : Int)]) "z".toList,
        text := "z".toList, meta := ⟨"q", ['c']⟩ } :=
  ⟨⟨by norm_num, by norm_num, by norm_num, by norm_num⟩, by
    have h := C3_batch_alignment (fun t => [(t.length : Int)]) 2 1
      (by norm_num) (by norm_num)
      ["x".toList, "y".toList, "z".toList]
      [⟨"p", ['a']⟩, ⟨"p", ['b']⟩, ⟨"q", ['c']⟩]
      (by norm_num) 2 (by norm_num)
    rw [h.2.2.1]
    rfl⟩

/-- The process-wide runtime-tunable configuration (main.py lines 25-30). -/
structure RuntimeConfig where
  EMBED_BATCH : Int
  UPSERT_BATCH : Int
  CHUNK_SIZE : Int
  CHUNK_OVERLAP : Int
deriving Repr, DecidableEq

/-- The optional-field patch body (main.py lines 182-186). -/
structure ConfigPatch where
  EMBED_BATCH : Option Int
  UPSERT_BATCH : Option Int
  CHUNK_SIZE : Option Int
  CHUNK_OVERLAP : Option Int
deriving Repr, DecidableEq

/-- The environment-derived defaults (main.py lines 19-24, with the
documented fallback values 32 / 256 / 800 / 120). -/
def default_config : RuntimeConfig :=
  { EMBED_BATCH := 32, UPSERT_BATCH := 256, CHUNK_SIZE := 800, CHUNK_OVERLAP := 120 }

def applyEB (r : RuntimeConfig) (p : ConfigPatch) : RuntimeConfig :=
  match p.EMBED_BATCH with
  | some v => if 0 < v then { r with EMBED_BATCH := v } else r
  | none => r

def applyUB (r : RuntimeConfig) (p : ConfigPatch) : RuntimeConfig :=
  match p.UPSERT_BATCH with
  | some v => if 0 < v then { r with UPSERT_BATCH := v } else r
  | none => r

def applyCS (r : RuntimeConfig) (p : ConfigPatch) : RuntimeConfig :=
  match p.CHUNK_SIZE with
  | some v => if 128 ≤ v then { r with CHUNK_SIZE := v } else r
  | none => r

def applyOV (r : RuntimeConfig) (p : ConfigPatch) : RuntimeConfig :=
  match p.CHUNK_OVERLAP with
  | some w => if 0 ≤ w ∧ w < r.CHUNK_SIZE then { r with CHUNK_OVERLAP := w } else r
  | none => r

/-- `set_config` (main.py lines 188-198): the four guarded `if` statements
run in order on the shared `RUNTIME` state; the overlap guard reads
`RUNTIME["CHUNK_SIZE"]` after a chunk-size update in the same request. -/
def set_config (r : RuntimeConfig) (p : ConfigPatch) : RuntimeConfig :=
  applyOV (applyCS (applyUB (applyEB r p) p) p) p

/-- The response of `POST /config` (main.py line 198): always
`{"ok": True, **RUNTIME}`. -/
def set_config_response (r : RuntimeConfig) (p : ConfigPatch) :
    Bool × RuntimeConfig :=
  (true, set_config r p)

/-- C6 counterexample: raising the overlap to 500 and then lowering the
chunk size to 128 — both individually accepted — leaves the runtime state
with `CHUNK_OVERLAP >= CHUNK_SIZE`. -/
theorem C6_counterexample :
    (List.foldl set_config default_config
        [{ EMBED_BATCH := none, UPSERT_BATCH := none, CHUNK_SIZE := none,
           CHUNK_OVERLAP := some 500 },
         { EMBED_BATCH := none, UPSERT_BATCH := none, CHUNK_SIZE := some 128,
           CHUNK_OVERLAP := none }]).CHUNK_SIZE = 128 ∧
    (List.foldl set_config default_config
        [{ EMBED_BATCH := none, UPSERT_BATCH := none, CHUNK_SIZE := none,
           CHUNK_OVERLAP := some 500 },
         { EMBED_BATCH := none, UPSERT_BATCH := none, CHUNK_SIZE := some 128,
           CHUNK_OVERLAP := none }]).CHUNK_OVERLAP = 500 ∧
    ¬ ((List.foldl set_config default_config
        [{ EMBED_BATCH := none, UPSERT_BATCH := none, CHUNK_SIZE := none,
           CHUNK_OVERLAP := some 500 },
         { EMBED_BATCH := none, UPSERT_BATCH := none, CHUNK_SIZE := some 128,
           CHUNK_OVERLAP := none }]).CHUNK_OVERLAP <
       (List.foldl set_config default_config
        [{ EMBED_BATCH := none, UPSERT_BATCH := none, CHUNK_SIZE := none,
           CHUNK_OVERLAP := some 500 },
         { EMBED_BATCH := none, UPSERT_BATCH := none, CHUNK_SIZE := some 128,
           CHUNK_OVERLAP := none }]).CHUNK_SIZE) := by
  refine ⟨rfl, rfl, ?_⟩
  decide

/-- The part of the claimed invariant that the patch validation does
preserve: positive batch sizes, `CHUNK_SIZE ≥ 128`, `CHUNK_OVERLAP ≥ 0`. -/
def ConfigInvWeak (r : RuntimeConfig) : Prop :=
  0 < r.EMBED_BATCH ∧ 0 < r.UPSERT_BATCH ∧ 128 ≤ r.CHUNK_SIZE ∧
    0 ≤ r.CHUNK_OVERLAP

theorem applyEB_fields (r : RuntimeConfig) (p : ConfigPatch) :
    ((applyEB r p).EMBED_BATCH = r.EMBED_BATCH ∨
      ∃ v, p.EMBED_BATCH = some v ∧ 0 < v ∧ (applyEB r p).EMBED_BATCH = v) ∧
    (applyEB r p).UPSERT_BATCH = r.UPSERT_BATCH ∧
    (applyEB r p).CHUNK_SIZE = r.CHUNK_SIZE ∧
    (applyEB r p).CHUNK_OVERLAP = r.CHUNK_OVERLAP := by
  unfold applyEB
  rcases h : p.EMBED_BATCH with _ | v
  · exact ⟨Or.inl rfl, rfl, rfl, rfl⟩
  · dsimp only
    split_ifs with hv
    · exact ⟨Or.inr ⟨v, rfl, hv, rfl⟩, rfl, rfl, rfl⟩
    · exact ⟨Or.inl rfl, rfl, rfl, rfl⟩

theorem applyUB_fields (r : RuntimeConfig) (p : ConfigPatch) :
    ((applyUB r p).UPSERT_BATCH = r.UPSERT_BATCH ∨
      ∃ v, p.UPSERT_BATCH = some v ∧ 0 < v ∧ (applyUB r p).UPSERT_BATCH = v) ∧
    (applyUB r p).EMBED_BATCH = r.EMBED_BATCH ∧
    (applyUB r p).CHUNK_SIZE = r.CHUNK_SIZE ∧
    (applyUB r p).CHUNK_OVERLAP = r.CHUNK_OVERLAP := by
  unfold applyUB
  rcases h : p.UPSERT_BATCH with _ | v
  · exact ⟨Or.inl rfl, rfl, rfl, rfl⟩
  · dsimp only
    split_ifs with hv
    · exact ⟨Or.inr ⟨v, rfl, hv, rfl⟩, rfl, rfl, rfl⟩
    · exact ⟨Or.inl rfl, rfl, rfl, rfl⟩

theorem applyCS_fields (r : RuntimeConfig) (p : ConfigPatch) :
    ((applyCS r p).CHUNK_SIZE = r.CHUNK_SIZE ∨
      ∃ v, p.CHUNK_SIZE = some v ∧ 128 ≤ v ∧ (applyCS r p).CHUNK_SIZE = v) ∧
    (applyCS r p).EMBED_BATCH = r.EMBED_BATCH ∧
    (applyCS r p).UPSERT_BATCH = r.UPSERT_BATCH ∧
    (applyCS r p).CHUNK_OVERLAP = r.CHUNK_OVERLAP := by
  unfold applyCS
  rcases h : p.CHUNK_SIZE with _ | v
  · exact ⟨Or.inl rfl, rfl, rfl, rfl⟩
  · dsimp only
    split_ifs with hv
    · exact ⟨Or.inr ⟨v, rfl, hv, rfl⟩, rfl, rfl, rfl⟩
    · exact ⟨Or.inl rfl, rfl, rfl, rfl⟩

theorem applyOV_fields (r : RuntimeConfig) (p : ConfigPatch) :
    ((applyOV r p).CHUNK_OVERLAP = r.CHUNK_OVERLAP ∨
      ∃ w, p.CHUNK_OVERLAP = some w ∧ 0 ≤ w ∧ w < r.CHUNK_SIZE ∧
        (applyOV r p).CHUNK_OVERLAP = w) ∧
    (applyOV r p).EMBED_BATCH = r.EMBED_BATCH ∧
    (applyOV r p).UPSERT_BATCH = r.UPSERT_BATCH ∧
    (applyOV r p).CHUNK_SIZE = r.CHUNK_SIZE := by
  unfold applyOV
  rcases h : p.CHUNK_OVERLAP with _ | w
  · exact ⟨Or.inl rfl, rfl, rfl, rfl⟩
  · dsimp only
    split_ifs with hw
    · exact ⟨Or.inr ⟨w, rfl, hw.1, hw.2, rfl⟩, rfl, rfl, rfl⟩
    · exact ⟨Or.inl rfl, rfl, rfl, rfl⟩

theorem set_config_preserves_weak (r : RuntimeConfig) (p : ConfigPatch)
    (hr : ConfigInvWeak r) : ConfigInvWeak (set_config r p) := by
  obtain ⟨h1, h2, h3, h4⟩ := hr
  unfold set_config
  obtain ⟨he, he2, he3, he4⟩ := applyEB_fields r p
  obtain ⟨hu, hu2, hu3, hu4⟩ := applyUB_fields (applyEB r p) p
  obtain ⟨hc, hc2, hc3, hc4⟩ := applyCS_fields (applyUB (applyEB r p) p) p
  obtain ⟨ho, ho2, ho3, ho4⟩ := applyOV_fields (applyCS (applyUB (applyEB r p) p) p) p
  refine ⟨?_, ?_, ?_, ?_⟩
  · rw [ho2, hc2, hu2]
    rcases he with he | ⟨v, _, hv, he⟩ <;> omega
  · rw [ho3, hc3]
    rcases hu with hu | ⟨v, _, hv, hu⟩
    · rw [hu, he2]
      omega
    · omega
  · rw [ho4]
    rcases hc with hc | ⟨v, hv128, hv, hc⟩
    · rw [hc, hu3, he3]
      omega
    · omega
  · rcases ho with ho | ⟨w, _, hw0, hww, ho⟩
    · rw [ho, hc4, hu4, he4]
      omega
    · omega

theorem applyEB_eq_some (r : RuntimeConfig) (p : ConfigPatch) (v : Int)
    (h : p.EMBED_BATCH = some v) :
    applyEB r p = if 0 < v then { r with EMBED_BATCH := v } else r := by
  unfold applyEB
  rw [h]

theorem applyUB_eq_some (r : RuntimeConfig) (p : ConfigPatch) (v : Int)
    (h : p.UPSERT_BATCH = some v) :
    applyUB r p = if 0 < v then { r with UPSERT_BATCH := v } else r := by
  unfold applyUB
  rw [h]

theorem applyCS_eq_some (r : RuntimeConfig) (p : ConfigPatch) (v : Int)
    (h : p.CHUNK_SIZE = some v) :
    applyCS r p = if 128 ≤ v then { r with CHUNK_SIZE := v } else r := by
  unfold applyCS
  rw [h]

theorem applyOV_eq_some (r : RuntimeConfig) (p : ConfigPatch) (w : Int)
    (h : p.CHUNK_OVERLAP = some w) :
    applyOV r p =
      if 0 ≤ w ∧ w < r.CHUNK_SIZE then { r with CHUNK_OVERLAP := w } else r := by
  unfold applyOV
  rw [h]

theorem foldl_set_config_preserves (ps : List ConfigPatch) :
    ∀ r, ConfigInvWeak r → ConfigInvWeak (ps.foldl set_config r) := by
  induction ps with
  | nil => intro r hr; exact hr
  | cons p rest ih =>
    intro r hr
    rw [List.foldl_cons]
    exact ih (set_config r p) (set_config_preserves_weak r p hr)

/-- C6 (amended): starting from the environment-derived defaults, every
sequence of config patches preserves `EMBED_BATCH > 0`, `UPSERT_BATCH > 0`,
`CHUNK_SIZE ≥ 128` and `CHUNK_OVERLAP ≥ 0`.  The remaining conjunct of the
claimed invariant, `CHUNK_OVERLAP < CHUNK_SIZE`, is *not* preserved: a
patch may lower `CHUNK_SIZE` below the current overlap
(see the counterexample). -/
theorem C6_config_invariant_amended (ps : List ConfigPatch) :
    ConfigInvWeak (List.foldl set_config default_config ps) := by
  apply foldl_set_config_preserves
  unfold ConfigInvWeak default_config
  refine ⟨by norm_num, by norm_num, by norm_num, by norm_num⟩

/-- C7: config patch validation is silent and per-field.  The response is
always reported as success together with the merged configuration; a
`CHUNK_SIZE` below 128 leaves `CHUNK_SIZE` unchanged; a `CHUNK_OVERLAP`
that is negative or at least the (possibly just-updated) `CHUNK_SIZE`
leaves `CHUNK_OVERLAP` unchanged; non-positive batch sizes leave the
corresponding batch size unchanged; every valid field is applied. -/
theorem C7_config_patch_behavior (r : RuntimeConfig) (p : ConfigPatch) :
    (set_config_response r p).1 = true ∧
    (set_config_response r p).2 = set_config r p ∧
    (∀ v, p.CHUNK_SIZE = some v → v < 128 →
        (set_config r p).CHUNK_SIZE = r.CHUNK_SIZE) ∧
    (∀ v, p.CHUNK_SIZE = some v → 128 ≤ v →
        (set_config r p).CHUNK_SIZE = v) ∧
    (∀ w, p.CHUNK_OVERLAP = some w →
        (w < 0 ∨ (set_config r p).CHUNK_SIZE ≤ w) →
        (set_config r p).CHUNK_OVERLAP = r.CHUNK_OVERLAP) ∧
    (∀ w, p.CHUNK_OVERLAP = some w → 0 ≤ w →
        w < (set_config r p).CHUNK_SIZE →
        (set_config r p).CHUNK_OVERLAP = w) ∧
    (∀ v, p.EMBED_BATCH = some v → v ≤ 0 →
        (set_config r p).EMBED_BATCH = r.EMBED_BATCH) ∧
    (∀ v, p.EMBED_BATCH = some v → 0 < v →
        (set_config r p).EMBED_BATCH = v) ∧
    (∀ v, p.UPSERT_BATCH = some v → v ≤ 0 →
        (set_config r p).UPSERT_BATCH = r.UPSERT_BATCH) ∧
    (∀ v, p.UPSERT_BATCH = some v → 0 < v →
        (set_config r p).UPSERT_BATCH = v) := by
  obtain ⟨he, he2, he3, he4⟩ := applyEB_fields r p
  obtain ⟨hu, hu2, hu3, hu4⟩ := applyUB_fields (applyEB r p) p
  obtain ⟨hc, hc2, hc3, hc4⟩ := applyCS_fields (applyUB (applyEB r p) p) p
  obtain ⟨ho, ho2, ho3, ho4⟩ :=
    applyOV_fields (applyCS (applyUB (applyEB r p) p) p) p
  refine ⟨rfl, rfl, ?_, ?_, ?_, ?_, ?_, ?_, ?_, ?_⟩
  · intro v hv hlt
    show (applyOV _ p).CHUNK_SIZE = _
    rw [ho4, applyCS_eq_some _ p v hv, if_neg (by omega), hu3, he3]
  · intro v hv hge
    show (applyOV _ p).CHUNK_SIZE = _
    rw [ho4, applyCS_eq_some _ p v hv, if_pos hge]
  · intro w hw hbad
    show (applyOV _ p).CHUNK_OVERLAP = _
    have hsz : (set_config r p).CHUNK_SIZE =
        (applyCS (applyUB (applyEB r p) p) p).CHUNK_SIZE := ho4
    rw [hsz] at hbad
    rw [applyOV_eq_some _ p w hw, if_neg (by omega), hc4, hu4, he4]
  · intro w hw h0 hlt
    show (applyOV _ p).CHUNK_OVERLAP = _
    have hsz : (set_config r p).CHUNK_SIZE =
        (applyCS (applyUB (applyEB r p) p) p).CHUNK_SIZE := ho4
    rw [hsz] at hlt
    rw [applyOV_eq_some _ p w hw, if_pos ⟨h0, hlt⟩]
  · intro v hv hle
    show (applyOV _ p).EMBED_BATCH = _
    rw [ho2, hc2, hu2, applyEB_eq_some r p v hv, if_neg (by omega)]
  · intro v hv hpos
    show (applyOV _ p).EMBED_BATCH = _
    rw [ho2, hc2, hu2, applyEB_eq_some r p v hv, if_pos hpos]
  · intro v hv hle
    show (applyOV _ p).UPSERT_BATCH = _
    rw [ho3, hc3, applyUB_eq_some _ p v hv, if_neg (by omega), he2]
  · intro v hv hpos
    show (applyOV _ p).UPSERT_BATCH = _
    rw [ho3, hc3, applyUB_eq_some _ p v hv, if_pos hpos]

theorem C7_config_patch_behavior_witness :
    (set_config_response default_config
        { EMBED_BATCH := some 0, UPSERT_BATCH := some 7,
          CHUNK_SIZE := some 100, CHUNK_OVERLAP := some 50 }).1 = true ∧
    (set_config default_config
        { EMBED_BATCH := some 0, UPSERT_BATCH := some 7,
          CHUNK_SIZE := some 100, CHUNK_OVERLAP := some 50 }).EMBED_BATCH =
      default_config.EMBED_BATCH ∧
    (set_config default_config
        { EMBED_BATCH := some 0, UPSERT_BATCH := some 7,
          CHUNK_SIZE := some 100, CHUNK_OVERLAP := some 50 }).UPSERT_BATCH = 7 ∧
    (set_config default_config
        { EMBED_BATCH := some 0, UPSERT_BATCH := some 7,
          CHUNK_SIZE := some 100, CHUNK_OVERLAP := some 50 }).CHUNK_SIZE =
      default_config.CHUNK_SIZE ∧
    (set_config default_config
        { EMBED_BATCH := some 0, UPSERT_BATCH := some 7,
          CHUNK_SIZE := some 100, CHUNK_OVERLAP := some 50 }).CHUNK_OVERLAP = 50 := by
  have h := C7_config_patch_behavior default_config
    { EMBED_BATCH := some 0, UPSERT_BATCH := some 7,
      CHUNK_SIZE := some 100, CHUNK_OVERLAP := some 50 }
  have hcs := h.2.2.1 100 rfl (by norm_num)
  refine ⟨h.1, h.2.2.2.2.2.2.1 0 rfl (by norm_num),
    h.2.2.2.2.2.2.2.2.2 7 rfl (by norm_num), hcs,
    h.2.2.2.2.2.1 50 rfl (by norm_num) ?_⟩
  rw [hcs]
  norm_num [default_config]

/-- `suffix in`-style check: Python `str.endswith`. -/
def endsWithL (suf l : List Char) : Bool :=
  l.reverse.take suf.length == suf.reverse

/-- Python `needle in hay` substring containment. -/
def containsL (needle hay : List Char) : Bool :=
  (List.range (hay.length + 1)).any
    (fun i => (hay.drop i).take needle.length == needle)

/-- The per-format extraction libraries (pypdf, python-docx, python-pptx,
pandas csv/xlsx/xls), black boxes that may raise. -/
structure Extractors where
  pdf : Bytes → Except Unit (List Char)
  docx : Bytes → Except Unit (List Char)
  pptx : Bytes → Except Unit (List Char)
  csv : Bytes → Except Unit (List Char)
  xlsx : Bytes → Except Unit (List Char)
  xls : Bytes → Except Unit (List Char)

/-- The dispatch chain inside the `try` of `extract_text`
(main.py lines 151-164), on the lowercased filename and content type.
`extract_text_from_txt` is the (total) UTF-8-ignore decode, so the text
branch cannot fail.  `none` means no branch matched and control falls past
the `try` block. -/
def tryStructured (ex : Extractors) (decode : Bytes → List Char)
    (name ct : List Char) (b : Bytes) : Option (Except Unit (List Char)) :=
  if endsWithL ".pdf".toList name || containsL "pdf".toList ct then
    some (ex.pdf b)
  else if endsWithL ".docx".toList name || containsL "word".toList ct then
    some (ex.docx b)
  else if endsWithL ".pptx".toList name || containsL "powerpoint".toList ct then
    some (ex.pptx b)
  else if endsWithL ".csv".toList name || containsL "csv".toList ct then
    some (ex.csv b)
  else if endsWithL ".xlsx".toList name then
    some (ex.xlsx b)
  else if endsWithL ".xls".toList name then
    some (ex.xls b)
  else if endsWithL ".md".toList name || endsWithL ".txt".toList name ||
      containsL "text".toList ct then
    some (Except.ok (decode b))
  else none

/-- `extract_text(filename, content_type, b)` (main.py lines 147-170): an
exception from a structured extractor is caught and answered with the
UTF-8-ignore decode of the raw bytes (which is total in Python, so the
inner `except` returning `""` is unreachable); an unmatched format falls
through to the same decode. -/
def extract_text (ex : Extractors) (decode : Bytes → List Char)
    (filename ct : List Char) (b : Bytes) : List Char :=
  match tryStructured ex decode (filename.map Char.toLower)
      (ct.map Char.toLower) b with
  | some (Except.ok t) => t
  | some (Except.error _) => decode b
  | none => decode b

/-- C8: `extract_text` is total — it never propagates an extraction
exception.  A structured-extraction failure degrades to the byte decode,
an unmatched format returns the byte decode, and a successful structured
extraction returns its text. -/
theorem C8_extract_never_raises (ex : Extractors) (decode : Bytes → List Char)
    (filename ct : List Char) (b : Bytes) :
    (∀ u, tryStructured ex decode (filename.map Char.toLower)
        (ct.map Char.toLower) b = some (Except.error u) →
      extract_text ex decode filename ct b = decode b) ∧
    (tryStructured ex decode (filename.map Char.toLower)
        (ct.map Char.toLower) b = none →
      extract_text ex decode filename ct b = decode b) ∧
    (∀ t, tryStructured ex decode (filename.map Char.toLower)
        (ct.map Char.toLower) b = some (Except.ok t) →
      extract_text ex decode filename ct b = t) := by
  refine ⟨?_, ?_, ?_⟩
  · intro u hu
    unfold extract_text
    rw [hu]
  · intro hn
    unfold extract_text
    rw [hn]
  · intro t ht
    unfold extract_text
    rw [ht]

theorem C8_extract_never_raises_witness :
    (tryStructured
        { pdf := fun _ => Except.error (), docx := fun _ => Except.error (),
          pptx := fun _ => Except.error (), csv := fun _ => Except.error (),
          xlsx := fun _ => Except.error (), xls := fun _ => Except.error () }
        (fun bs => bs) ("a.PDF".toList.map Char.toLower)
        ("".toList.map Char.toLower) "raw".toList = some (Except.error ())) ∧
    extract_text
        { pdf := fun _ => Except.error (), docx := fun _ => Except.error (),
          pptx := fun _ => Except.error (), csv := fun _ => Except.error (),
          xlsx := fun _ => Except.error (), xls := fun _ => Except.error () }
        (fun bs => bs) "a.PDF".toList "".toList "raw".toList = "raw".toList := by
  have hdisp : tryStructured
      { pdf := fun _ => Except.error (), docx := fun _ => Except.error (),
        pptx := fun _ => Except.error (), csv := fun _ => Except.error (),
        xlsx := fun _ => Except.error (), xls := fun _ => Except.error () }
      (fun bs => bs) ("a.PDF".toList.map Char.toLower)
      ("".toList.map Char.toLower) "raw".toList = some (Except.error ()) := by
    rfl
  exact ⟨hdisp,
    (C8_extract_never_raises _ (fun bs => bs) "a.PDF".toList "".toList
      "raw".toList).1 () hdisp⟩

/-- The startup dimension probe (main.py lines 173-176): the collection is
created with the dimensionality of the vector the embedding service returns
for the fixed probe sentence `"dimension probe"`. -/
def probe_text : Text := "dimension probe".toList

/-- `ensure_collection(len(embed("dimension probe")))`: the collection
dimensionality fixed at startup. -/
def startup_dim (E : Emb) : Nat := (E probe_text).length

/-- Every point produced by the batching loop describes some chunk `t`:
vector `embedOne E t`, text `t`, metadata at its absolute index. -/
theorem mkPoints_mem (E : Emb) (g : Nat → ChunkMeta) :
    ∀ (l : List Text) (T : Nat) (pt : PointStruct), pt ∈ mkPoints E g l T →
      ∃ k, k < l.length ∧
        pt = { vector := embedOne E (l.getD k []), text := l.getD k [],
               meta := g (T + k) } := by
  intro l
  induction l with
  | nil => intro T pt h; simp [mkPoints] at h
  | cons t rest ih =>
    intro T pt h
    rw [mkPoints, List.mem_cons] at h
    rcases h with h | h
    · exact ⟨0, by simp, by simpa using h⟩
    · obtain ⟨k, hk, hpt⟩ := ih (T + 1) pt h
      refine ⟨k + 1, by simpa using hk, ?_⟩
      rw [hpt]
      have : T + 1 + k = T + (k + 1) := by omega
      rw [this]
      rfl

theorem embedOne_length (E : Emb) (h768 : ∀ t, (E t).length = 768) (t : Text) :
    (embedOne E t).length = 768 := by
  unfold embedOne
  split_ifs
  · exact h768 t
  · rw [List.length_replicate]

/-- C4 counterexample: with an embedding service whose vectors are
3-dimensional, the startup probe fixes the collection dimensionality at 3,
yet ingesting a whitespace-only chunk stores the hardcoded 768-dimensional
zero vector. -/
theorem C4_counterexample :
    startup_dim (fun _ => [0, 0, 0]) = 3 ∧
    (∃ pt ∈ ingestPoints (fun _ => [0, 0, 0]) 1 1 (by norm_num) (by norm_num)
        [[' ']] [⟨"p", ['f']⟩],
      pt.vector.length = 768 ∧
      pt.vector.length ≠ startup_dim (fun _ => [0, 0, 0])) := by
  refine ⟨rfl, ⟨⟨List.replicate 768 0, [' '], ⟨"p", ['f']⟩⟩, ?_, ?_, ?_⟩⟩
  · unfold ingestPoints
    rw [pipeline_spec]
    rw [show mkPoints (fun _ => ([0, 0, 0] : Vec))
          (metaPick [⟨"p", ['f']⟩]) [[' ']] 0 =
          [⟨List.replicate 768 0, [' '], ⟨"p", ['f']⟩⟩] from rfl]
    exact List.mem_singleton.mpr rfl
  · rw [List.length_replicate]
  · rw [List.length_replicate]
    norm_num [startup_dim]

/-- C4 (amended): provided the embedding service returns 768-dimensional
vectors for every input — as the default `nomic-embed-text` model does —
every stored point's vector has the probed collection dimensionality.  The
zero vector substituted for blank chunks is hardcoded to 768 dimensions
(main.py line 58) irrespective of the probe, so with a service of any other
dimensionality the claimed invariant fails for blank chunks (see the
counterexample). -/
theorem C4_amended_dim_invariant (E : Emb) (h768 : ∀ t, (E t).length = 768)
    (EB UB : Nat) (hEB : 0 < EB) (hUB : 0 < UB)
    (cs : List Text) (meta : List ChunkMeta) :
    ∀ pt ∈ ingestPoints E EB UB hEB hUB cs meta,
      pt.vector.length = startup_dim E ∧ pt.vector.length = 768 := by
  intro pt hpt
  unfold ingestPoints at hpt
  rw [pipeline_spec] at hpt
  obtain ⟨k, hk, hpt⟩ := mkPoints_mem E (metaPick meta) cs 0 pt hpt
  have hv : pt.vector = embedOne E (cs.getD k []) := by rw [hpt]
  have hlen : pt.vector.length = 768 := by
    rw [hv]
    exact embedOne_length E h768 _
  have hdim : startup_dim E = 768 := h768 probe_text
  exact ⟨by rw [hlen, hdim], hlen⟩

def constE768 : Emb := fun _ => List.replicate 768 0

theorem C4_amended_dim_invariant_witness :
    ((∀ t, (constE768 t).length = 768) ∧ (0 : Nat) < 1) ∧
    ∀ pt ∈ ingestPoints constE768 1 1 (by norm_num) (by norm_num)
        [['x']] [⟨"p", ['f']⟩],
      pt.vector.length = startup_dim constE768 ∧ pt.vector.length = 768 :=
  ⟨⟨fun _ => by rw [constE768, List.length_replicate], by norm_num⟩,
    C4_amended_dim_invariant constE768
      (fun _ => by rw [constE768, List.length_replicate]) 1 1 (by norm_num)
      (by norm_num) [['x']] [⟨"p", ['f']⟩]⟩

/-- `ingest_bytes` (main.py lines 209-213): extract text, chunk it with the
current runtime parameters, and append each chunk plus its
`{"project": ..., "file": ...}` record to the parallel accumulators. -/
def ingest_bytes (ex : Extractors) (decode : Bytes → List Char)
    (CS OV : Int) (filename ct : List Char) (raw : Bytes) (project : String)
    (acc : List Text × List ChunkMeta) : List Text × List ChunkMeta :=
  let text := extract_text ex decode filename ct raw
  let cs := chunks text CS OV
  (acc.1 ++ cs, acc.2 ++ cs.map (fun _ => ⟨project, filename⟩))

/-- Response of `POST /ingest` (main.py line 234). -/
structure IngestResponse where
  ok : Bool
  project : String
  chunks : Nat
  files : List (List Char)
deriving Repr, DecidableEq

/-- The `/ingest` endpoint (main.py lines 215-234): accumulate chunks and
metadata over the uploaded files (each given as
`(filename, content_type, raw bytes)`), run the nested batching loop, and
answer `ok` with the final `total_points`.  The returned pair also exposes
the upserted points (the observable effect on the vector store). -/
def ingest (E : Emb) (ex : Extractors) (decode : Bytes → List Char)
    (CS OV : Int) (EB UB : Nat) (hEB : 0 < EB) (hUB : 0 < UB)
    (project : String) (files : List (List Char × List Char × Bytes)) :
    IngestResponse × List PointStruct :=
  let acc := files.foldl
    (fun a f => ingest_bytes ex decode CS OV f.1 f.2.1 f.2.2 project a) ([], [])
  let r := pipeline E (metaPick acc.2) EB UB hEB hUB acc.1
  (⟨true, project, r.1, files.map (fun f => f.1)⟩, r.2)

/-- One-file `/ingest` characterisation. -/
theorem ingest_single (E : Emb) (ex : Extractors) (decode : Bytes → List Char)
    (CS OV : Int) (EB UB : Nat) (hEB : 0 < EB) (hUB : 0 < UB)
    (project : String) (fn ct : List Char) (raw : Bytes) :
    (ingest E ex decode CS OV EB UB hEB hUB project [(fn, ct, raw)]).1.ok = true ∧
    (ingest E ex decode CS OV EB UB hEB hUB project [(fn, ct, raw)]).1.chunks =
      (chunks (extract_text ex decode fn ct raw) CS OV).length ∧
    (ingest E ex decode CS OV EB UB hEB hUB project [(fn, ct, raw)]).2 =
      mkPoints E
        (metaPick ((chunks (extract_text ex decode fn ct raw) CS OV).map
          (fun _ => ⟨project, fn⟩)))
        (chunks (extract_text ex decode fn ct raw) CS OV) 0 := by
  unfold ingest
  simp only [List.foldl_cons, List.foldl_nil]
  unfold ingest_bytes
  simp only [List.nil_append]
  rw [pipeline_spec]
  exact ⟨trivial, rfl, rfl⟩

/-- An always-failing set of extraction libraries (never consulted on the
plain-text path). -/
def exErr : Extractors :=
  ⟨fun _ => Except.error (), fun _ => Except.error (), fun _ => Except.error (),
    fun _ => Except.error (), fun _ => Except.error (), fun _ => Except.error ()⟩

def oneE : Emb := fun _ => [1]

/-- On a `.txt` filename with a `text/plain` content type, extraction is the
plain byte decode, whatever the structured extractors do. -/
theorem extract_txt_eval (ex : Extractors) (decode : Bytes → List Char)
    (raw : Bytes) :
    extract_text ex decode "doc.txt".toList "text/plain".toList raw =
      decode raw := rfl

theorem chunk_step_default : ((max 1 ((800 : Int) - 120)).toNat) = 680 := by
  decide

/-- C5 counterexample: a plain-text document of exactly
`2*CHUNK_SIZE - CHUNK_OVERLAP = 1480` characters under the default
configuration produces 3 chunks and 3 stored points, not 2: the loop also
emits the trailing 120-character window starting at offset 1360. -/
theorem C5_counterexample :
    (ingest oneE exErr (fun bs => bs) 800 120 32 256 (by norm_num)
        (by norm_num) "proj"
        [("doc.txt".toList, "text/plain".toList,
          List.replicate 1480 'a')]).1.chunks = 3 ∧
    (ingest oneE exErr (fun bs => bs) 800 120 32 256 (by norm_num)
        (by norm_num) "proj"
        [("doc.txt".toList, "text/plain".toList,
          List.replicate 1480 'a')]).2.length = 3 ∧
    ¬ ((ingest oneE exErr (fun bs => bs) 800 120 32 256 (by norm_num)
        (by norm_num) "proj"
        [("doc.txt".toList, "text/plain".toList,
          List.replicate 1480 'a')]).1.chunks = 2) := by
  obtain ⟨hok, hcnt, hpts⟩ := ingest_single oneE exErr (fun bs => bs) 800 120
    32 256 (by norm_num) (by norm_num) "proj" "doc.txt".toList
    "text/plain".toList (List.replicate 1480 'a')
  have hlen : (chunks (List.replicate 1480 'a') 800 120).length = 3 := by
    rw [chunks_length, List.length_replicate, chunk_step_default]
  refine ⟨?_, ?_, ?_⟩
  · rw [hcnt, extract_txt_eval, hlen]
  · rw [hpts]
    rw [mkPoints_length, extract_txt_eval, hlen]
  · rw [hcnt, extract_txt_eval, hlen]
    norm_num

/-- C5 (amended): ingesting a plain-text document of exactly
`2*CHUNK_SIZE - CHUNK_OVERLAP` characters under the default configuration
produces exactly **3** chunks (`⌈1480/680⌉`) and hence exactly 3 stored
points, each tagged with the given project and filename. -/
theorem C5_amended_ingest_three_points (E : Emb) (ex : Extractors)
    (decode : Bytes → List Char) (raw : Bytes)
    (hdoc : (decode raw).length = 2 * 800 - 120)
    (EB UB : Nat) (hEB : 0 < EB) (hUB : 0 < UB) (project : String) :
    (ingest E ex decode 800 120 EB UB hEB hUB project
        [("doc.txt".toList, "text/plain".toList, raw)]).1.ok = true ∧
    (ingest E ex decode 800 120 EB UB hEB hUB project
        [("doc.txt".toList, "text/plain".toList, raw)]).1.chunks = 3 ∧
    (ingest E ex decode 800 120 EB UB hEB hUB project
        [("doc.txt".toList, "text/plain".toList, raw)]).2.length = 3 ∧
    (∀ pt ∈ (ingest E ex decode 800 120 EB UB hEB hUB project
        [("doc.txt".toList, "text/plain".toList, raw)]).2,
      pt.meta = ⟨project, "doc.txt".toList⟩) := by
  obtain ⟨hok, hcnt, hpts⟩ := ingest_single E ex decode 800 120 EB UB hEB hUB
    project "doc.txt".toList "text/plain".toList raw
  have hlen : (chunks (extract_text ex decode "doc.txt".toList
      "text/plain".toList raw) 800 120).length = 3 := by
    rw [extract_txt_eval, chunks_length, hdoc, chunk_step_default]
  refine ⟨hok, by rw [hcnt, hlen], by rw [hpts, mkPoints_length, hlen], ?_⟩
  intro pt hpt
  rw [hpts] at hpt
  obtain ⟨k, hk, hpt⟩ := mkPoints_mem _ _ _ _ pt hpt
  rw [hpt]
  show metaPick _ (0 + k) = _
  unfold metaPick
  rw [if_pos (by simpa using hk)]
  rw [List.getD_eq_getElem _ _ (by simpa using hk), List.getElem_map]

theorem C5_amended_ingest_three_points_witness :
    (((fun (bs : Bytes) => bs) (List.replicate 1480 'a')).length =
        2 * 800 - 120 ∧ (0 : Nat) < 32 ∧ (0 : Nat) < 256) ∧
    (ingest oneE exErr (fun bs => bs) 800 120 32 256 (by norm_num)
        (by norm_num) "proj"
        [("doc.txt".toList, "text/plain".toList,
          List.replicate 1480 'a')]).1.chunks = 3 ∧
    (∀ pt ∈ (ingest oneE exErr (fun bs => bs) 800 120 32 256 (by norm_num)
        (by norm_num) "proj"
        [("doc.txt".toList, "text/plain".toList,
          List.replicate 1480 'a')]).2,
      pt.meta = ⟨"proj", "doc.txt".toList⟩) := by
  have h := C5_amended_ingest_three_points oneE exErr (fun bs => bs)
    (List.replicate 1480 'a') (by rw [List.length_replicate]) 32 256
    (by norm_num) (by norm_num) "proj"
  exact ⟨⟨by rw [List.length_replicate], by norm_num, by norm_num⟩,
    h.2.1, h.2.2.2⟩

/-- `u.split("?")[0].rstrip("/").split("/")[-1] or "downloaded"`
(main.py line 257). -/
def urlFname (u : List Char) : List Char :=
  let base := (u.splitOn '?').headD []
  let base2 := (base.reverse.dropWhile (fun c => c == '/')).reverse
  let last := (base2.splitOn '/').getLastD []
  if last.isEmpty then "downloaded".toList else last

/-- The content-type guess from the lowercased URL (main.py lines 248-256). -/
def ctypeFor (u : List Char) : List Char :=
  let lower := u.map Char.toLower
  if endsWithL ".pdf".toList lower then "application/pdf".toList
  else if endsWithL ".docx".toList lower then
    "application/vnd.openxmlformats-officedocument.wordprocessingml.document".toList
  else if endsWithL ".pptx".toList lower then
    "application/vnd.openxmlformats-officedocument.presentationml.presentation".toList
  else if endsWithL ".xlsx".toList lower then
    "application/vnd.openxmlformats-officedocument.spreadsheetml.sheet".toList
  else if endsWithL ".xls".toList lower then "application/vnd.ms-excel".toList
  else if endsWithL ".csv".toList lower then "text/csv".toList
  else if endsWithL ".md".toList lower || endsWithL ".txt".toList lower then
    "text/plain".toList
  else "application/octet-stream".toList

/-- The per-URL `try` body of `/ingest_urls` (main.py lines 245-262): the
HTTP fetch (and its status check) is the only fallible step, modelled as an
oracle; on failure the URL is skipped (`continue`), on success the bytes
are ingested and `fetched` is incremented. -/
def urlStep (ex : Extractors) (decode : Bytes → List Char) (CS OV : Int)
    (fetch : List Char → Except Unit Bytes) (project : String)
    (a : (List Text × List ChunkMeta) × Nat) (u : List Char) :
    (List Text × List ChunkMeta) × Nat :=
  match fetch u with
  | Except.error _ => a
  | Except.ok data =>
      (ingest_bytes ex decode CS OV (urlFname u) (ctypeFor u) data project a.1,
        a.2 + 1)

/-- Response of `POST /ingest_urls` (main.py line 273). -/
structure UrlResponse where
  ok : Bool
  project : String
  fetched : Nat
  chunks : Nat
deriving Repr, DecidableEq

/-- The `/ingest_urls` endpoint (main.py lines 241-273). -/
def ingest_urls (E : Emb) (ex : Extractors) (decode : Bytes → List Char)
    (fetch : List Char → Except Unit Bytes) (CS OV : Int) (EB UB : Nat)
    (hEB : 0 < EB) (hUB : 0 < UB) (project : String)
    (urls : List (List Char)) : UrlResponse × List PointStruct :=
  let acc := urls.foldl (urlStep ex decode CS OV fetch project) (([], []), 0)
  let r := pipeline E (metaIdx acc.1.2) EB UB hEB hUB acc.1.1
  (⟨true, project, acc.2, r.1⟩, r.2)

def fetchOk (fetch : List Char → Except Unit Bytes) (u : List Char) : Bool :=
  match fetch u with
  | Except.ok _ => true
  | Except.error _ => false

/-- Number of chunks a URL contributes: zero when its fetch fails. -/
def urlChunkCount (ex : Extractors) (decode : Bytes → List Char) (CS OV : Int)
    (fetch : List Char → Except Unit Bytes) (u : List Char) : Nat :=
  match fetch u with
  | Except.ok d =>
      (chunks (extract_text ex decode (urlFname u) (ctypeFor u) d) CS OV).length
  | Except.error _ => 0

theorem urlFold_spec (ex : Extractors) (decode : Bytes → List Char)
    (CS OV : Int) (fetch : List Char → Except Unit Bytes) (project : String) :
    ∀ (urls : List (List Char)) (cs0 : List Text) (ms0 : List ChunkMeta)
      (f0 : Nat),
      (urls.foldl (urlStep ex decode CS OV fetch project) ((cs0, ms0), f0)).2 =
        f0 + (urls.filter (fetchOk fetch)).length ∧
      (urls.foldl (urlStep ex decode CS OV fetch project)
          ((cs0, ms0), f0)).1.1.length =
        cs0.length + (urls.map (urlChunkCount ex decode CS OV fetch)).sum := by
  intro urls
  induction urls with
  | nil => intro cs0 ms0 f0; simp
  | cons u rest ih =>
    intro cs0 ms0 f0
    rw [List.foldl_cons]
    cases hf : fetch u with
    | error e =>
      have hstep : urlStep ex decode CS OV fetch project ((cs0, ms0), f0) u =
          ((cs0, ms0), f0) := by
        unfold urlStep
        rw [hf]
      have hP : fetchOk fetch u = false := by
        unfold fetchOk
        rw [hf]
      have hC : urlChunkCount ex decode CS OV fetch u = 0 := by
        unfold urlChunkCount
        rw [hf]
      rw [hstep]
      obtain ⟨ih1, ih2⟩ := ih cs0 ms0 f0
      constructor
      · rw [ih1, List.filter_cons, hP]
        simp
      · rw [ih2, List.map_cons, List.sum_cons, hC]
        omega
    | ok data =>
      have hstep : urlStep ex decode CS OV fetch project ((cs0, ms0), f0) u =
          ((cs0 ++ chunks (extract_text ex decode (urlFname u) (ctypeFor u)
              data) CS OV,
            ms0 ++ (chunks (extract_text ex decode (urlFname u) (ctypeFor u)
              data) CS OV).map (fun _ => ⟨project, urlFname u⟩)),
           f0 + 1) := by
        unfold urlStep ingest_bytes
        rw [hf]
      have hP : fetchOk fetch u = true := by
        unfold fetchOk
        rw [hf]
      have hC : urlChunkCount ex decode CS OV fetch u =
          (chunks (extract_text ex decode (urlFname u) (ctypeFor u) data)
            CS OV).length := by
        unfold urlChunkCount
        rw [hf]
      rw [hstep]
      obtain ⟨ih1, ih2⟩ := ih
        (cs0 ++ chunks (extract_text ex decode (urlFname u) (ctypeFor u)
          data) CS OV)
        (ms0 ++ (chunks (extract_text ex decode (urlFname u) (ctypeFor u)
          data) CS OV).map (fun _ => ⟨project, urlFname u⟩))
        (f0 + 1)
      constructor
      · rw [ih1, List.filter_cons, hP]
        simp only [List.length_cons, if_true]
        omega
      · rw [ih2, List.map_cons, List.sum_cons, hC, List.length_append]
        omega

/-- C9: URL ingestion never aborts on per-URL failures: failing URLs are
skipped, `fetched` counts exactly the successfully fetched URLs, the chunk
count sums the chunks of the successful documents only, and the response
reports `ok`. -/
theorem C9_url_partial_failure (E : Emb) (ex : Extractors)
    (decode : Bytes → List Char) (fetch : List Char → Except Unit Bytes)
    (CS OV : Int) (EB UB : Nat) (hEB : 0 < EB) (hUB : 0 < UB)
    (project : String) (urls : List (List Char)) :
    (ingest_urls E ex decode fetch CS OV EB UB hEB hUB project urls).1.ok =
      true ∧
    (ingest_urls E ex decode fetch CS OV EB UB hEB hUB project urls).1.fetched =
      (urls.filter (fetchOk fetch)).length ∧
    (ingest_urls E ex decode fetch CS OV EB UB hEB hUB project urls).1.chunks =
      (urls.map (urlChunkCount ex decode CS OV fetch)).sum := by
  obtain ⟨h1, h2⟩ := urlFold_spec ex decode CS OV fetch project urls [] [] 0
  unfold ingest_urls
  refine ⟨rfl, ?_, ?_⟩
  · show (urls.foldl (urlStep ex decode CS OV fetch project) (([], []), 0)).2 = _
    rw [h1]
    omega
  · show (pipeline E
        (metaIdx (urls.foldl (urlStep ex decode CS OV fetch project)
          (([], []), 0)).1.2) EB UB hEB hUB
        (urls.foldl (urlStep ex decode CS OV fetch project)
          (([], []), 0)).1.1).1 = _
    rw [pipeline_spec, h2]
    simp

/-- A fetch oracle failing on the middle of three URLs. -/
def fetchMid : List Char → Except Unit Bytes := fun u =>
  if u == "b.txt".toList then Except.error () else Except.ok "hi".toList

theorem C9_url_partial_failure_witness :
    ((0 : Nat) < 1 ∧ (0 : Nat) < 1) ∧
    (ingest_urls oneE exErr (fun bs => bs) fetchMid 128 0 1 1 (by norm_num)
        (by norm_num) "proj"
        ["a.txt".toList, "b.txt".toList, "c.txt".toList]).1.ok = true ∧
    (ingest_urls oneE exErr (fun bs => bs) fetchMid 128 0 1 1 (by norm_num)
        (by norm_num) "proj"
        ["a.txt".toList, "b.txt".toList, "c.txt".toList]).1.fetched = 2 ∧
    (ingest_urls oneE exErr (fun bs => bs) fetchMid 128 0 1 1 (by norm_num)
        (by norm_num) "proj"
        ["a.txt".toList, "b.txt".toList, "c.txt".toList]).1.chunks = 2 := by
  have h := C9_url_partial_failure oneE exErr (fun bs => bs) fetchMid 128 0 1 1
    (by norm_num) (by norm_num) "proj"
    ["a.txt".toList, "b.txt".toList, "c.txt".toList]
  have hca : urlChunkCount exErr (fun bs => bs) 128 0 fetchMid "a.txt".toList = 1 := by
    show (chunks (extract_text exErr (fun bs => bs) (urlFname "a.txt".toList)
      (ctypeFor "a.txt".toList) "hi".toList) 128 0).length = 1
    rw [show extract_text exErr (fun bs => bs) (urlFname "a.txt".toList)
      (ctypeFor "a.txt".toList) "hi".toList = "hi".toList from rfl]
    rw [chunks_length]
    decide
  have hcb : urlChunkCount exErr (fun bs => bs) 128 0 fetchMid "b.txt".toList = 0 := by
    rfl
  have hcc : urlChunkCount exErr (fun bs => bs) 128 0 fetchMid "c.txt".toList = 1 := by
    show (chunks (extract_text exErr (fun bs => bs) (urlFname "c.txt".toList)
      (ctypeFor "c.txt".toList) "hi".toList) 128 0).length = 1
    rw [show extract_text exErr (fun bs => bs) (urlFname "c.txt".toList)
      (ctypeFor "c.txt".toList) "hi".toList = "hi".toList from rfl]
    rw [chunks_length]
    decide
  refine ⟨⟨by norm_num, by norm_num⟩, h.1, ?_, ?_⟩
  · rw [h.2.1]
    rfl
  · rw [h.2.2, List.map_cons, List.map_cons, List.map_cons, List.map_nil,
      List.sum_cons, List.sum_cons, List.sum_cons, hca, hcb, hcc]
    rfl
